import Mathlib

/-!
Verification development for the BioProject metadata grouping pipeline
(`parse_bioproject.py` and `apply_grouping_rules` in
`parse_metadata_deepseek_plus.py`).

The pipeline's core — column deduplication, grouping-candidate selection,
label normalization and the rule engine that applies oracle-supplied
pattern→label rules to a sample table — is embedded shallowly below.
Cells are modelled as `String`s: the pipeline coerces all nulls to the
sentinel `"NA"` (`.fillna("NA")` immediately after the metadata fetch)
before any of the modelled functions run, so the modelled tables carry
plain string cells.  Character-level operations (`lower`, `upper`,
whitespace, word characters) are modelled on the ASCII fragment plus
CJK ideographs treated as word characters, which matches Python's
behaviour on every string class the pipeline manipulates.  Regular
expression patterns supplied by the oracle are modelled in the literal
fragment (no metacharacters), where pandas' `str.contains(pat,
case=False)` is exactly case-insensitive substring search.
-/

namespace ParseBioproject

/-- Python `\s` / `str.strip` whitespace, ASCII fragment. -/
def isSpaceB (c : Char) : Bool :=
  c == ' ' || c == '\t' || c == '\n' || c == '\r' || c == '\x0b' || c == '\x0c'

/-- ASCII decimal digit, the `\d` class on the fragment the pipeline meets. -/
def isDigitB (c : Char) : Bool :=
  '0' ≤ c && c ≤ '9'

/-- Python `\w` (used by `\b` word boundaries): ASCII alphanumerics,
underscore, and non-ASCII letters (CJK ideographs such as 第/天 are word
characters for Python's Unicode `re`). -/
def isWordB (c : Char) : Bool :=
  ('a' ≤ c && c ≤ 'z') || ('A' ≤ c && c ≤ 'Z') || isDigitB c || c == '_' || 127 < c.toNat

/-- Does the list start with the given pattern (character-exact)? -/
def startsWithL : List Char → List Char → Bool
  | [], _ => true
  | _ :: _, [] => false
  | p :: ps, h :: hs => p == h && startsWithL ps hs

/-- Substring containment on character lists (the semantics of Python's
`in` operator on strings, and of `str.contains` for literal patterns). -/
def containsSub : List Char → List Char → Bool
  | hay, pat =>
    match hay with
    | [] => pat.isEmpty
    | _ :: t => startsWithL pat hay || containsSub t pat

/-- Python `str.strip()`: remove leading and trailing whitespace. -/
def stripL (l : List Char) : List Char :=
  ((l.dropWhile isSpaceB).reverse.dropWhile isSpaceB).reverse

/-- Lowercase a character list (Python `str.lower`, ASCII fragment). -/
def lowerL (l : List Char) : List Char := l.map Char.toLower

/-- Lowercase a string (Python `str.lower`, ASCII fragment). -/
def lowerS (s : String) : String := String.mk (lowerL s.data)

/-- Case-insensitive substring containment, the semantics of pandas
`Series.str.contains(pat, case=False)` for literal patterns. -/
def ciContains (hay pat : List Char) : Bool :=
  containsSub (lowerL hay) (lowerL pat)

/-! ### Label Normalizer (`normalize_group_label`, parse_bioproject.py:128-136)

`re.sub(r"\bgroup\b", "", v, flags=re.I)`: scan left to right; a match is
five characters spelling "group" case-insensitively with a word boundary
on each side; a match is deleted and scanning resumes after it (boundary
checks look at the characters of the *original* string, so the character
preceding the scan position is threaded through). -/

/-- Word-boundary check on the character before the match site. -/
def prevBoundary : Option Char → Bool
  | none => true
  | some c => !isWordB c

/-- Word-boundary check on the characters after the match site. -/
def nextBoundary : List Char → Bool
  | [] => true
  | c :: _ => !isWordB c

/-- One scan of `re.sub(r"\bgroup\b", "", v, flags=re.I)`. -/
def groupSubAux : Option Char → List Char → List Char
  | prev, c1 :: c2 :: c3 :: c4 :: c5 :: rest =>
    if prevBoundary prev && c1.toLower == 'g' && c2.toLower == 'r' &&
        c3.toLower == 'o' && c4.toLower == 'u' && c5.toLower == 'p' &&
        nextBoundary rest then
      groupSubAux (some c5) rest
    else
      c1 :: groupSubAux (some c1) (c2 :: c3 :: c4 :: c5 :: rest)
  | _, c :: rest => c :: groupSubAux (some c) rest
  | _, [] => []

/-- `re.sub(r"\bgroup\b", "", v, flags=re.I)`. -/
def groupSub (l : List Char) : List Char := groupSubAux none l

/-- Match attempt for `第?\s*(\d+)\s*天` at the head of the list.  The
character classes 第, `\s`, `\d`, 天 are pairwise disjoint, so greedy
maximal munch coincides with Python's backtracking semantics here.
Returns the captured digits and the remainder after the match. -/
def tryDayMatch (l : List Char) : Option (List Char × List Char) :=
  let l1 := match l with
    | c :: t => if c == '第' then t else l
    | [] => l
  let l2 := l1.dropWhile isSpaceB
  let ds := l2.takeWhile isDigitB
  if ds.isEmpty then none
  else
    match (l2.dropWhile isDigitB).dropWhile isSpaceB with
    | c :: rest => if c == '天' then some (ds, rest) else none
    | [] => none

/-- Scan for `re.sub(r"第?\s*(\d+)\s*天", r"day\1", v)`; fuel-indexed so
the definition reduces in the kernel (each step consumes at least one
character, so `l.length` fuel always suffices). -/
def subDayAux : Nat → List Char → List Char
  | 0, l => l
  | _ + 1, [] => []
  | fuel + 1, c :: rest =>
    match tryDayMatch (c :: rest) with
    | some (ds, after) => 'd' :: 'a' :: 'y' :: (ds ++ subDayAux fuel after)
    | none => c :: subDayAux fuel rest

/-- `re.sub(r"第?\s*(\d+)\s*天", r"day\1", v)`. -/
def subDay (l : List Char) : List Char := subDayAux l.length l

/-- Match attempt for `time(point)?\s*(\d+)` (case-insensitive) at the
head of the list.  Greedy `(point)?` followed by the disjoint `\s`/`\d`
classes again makes maximal munch coincide with backtracking. -/
def tryTimeMatch (l : List Char) : Option (List Char × List Char) :=
  match l with
  | t :: i :: m :: e :: rest =>
    if t.toLower == 't' && i.toLower == 'i' && m.toLower == 'm' && e.toLower == 'e' then
      let rest2 := match rest with
        | p :: o :: i2 :: n :: t2 :: r2 =>
          if p.toLower == 'p' && o.toLower == 'o' && i2.toLower == 'i' &&
              n.toLower == 'n' && t2.toLower == 't' then r2 else rest
        | _ => rest
      let l2 := rest2.dropWhile isSpaceB
      let ds := l2.takeWhile isDigitB
      if ds.isEmpty then none else some (ds, l2.dropWhile isDigitB)
    else none
  | _ => none

/-- Scan for `re.sub(r"time(point)?\s*(\d+)", r"day\2", v, flags=re.I)`. -/
def subTimeAux : Nat → List Char → List Char
  | 0, l => l
  | _ + 1, [] => []
  | fuel + 1, c :: rest =>
    match tryTimeMatch (c :: rest) with
    | some (ds, after) => 'd' :: 'a' :: 'y' :: (ds ++ subTimeAux fuel after)
    | none => c :: subTimeAux fuel rest

/-- `re.sub(r"time(point)?\s*(\d+)", r"day\2", v, flags=re.I)`. -/
def subTime (l : List Char) : List Char := subTimeAux l.length l

/-- `normalize_group_label` (parse_bioproject.py:128-136): return `"NA"`
for an empty or case-insensitively-`"NA"` input, otherwise strip, delete
the standalone word "group", canonicalize 第N天 and time/timepoint N to
`dayN`, and strip again. -/
def normalize_group_label (s : String) : String :=
  if s.data = [] ∨ s.data.map Char.toUpper = "NA".data then "NA"
  else String.mk (stripL (subTime (subDay (groupSub (stripL s.data)))))

/-! ### Data model

A `DFrame` is the shallow embedding of a pandas string-typed DataFrame:
an ordered list of named columns over a shared row count.  The pipeline
loads the table with `dtype=str` and immediately applies
`.fillna("NA")` (parse_bioproject.py:222), so cells are plain strings.
Well-formedness (`DFrame.WF`) states that every column has exactly
`nrows` cells; it is a hypothesis where a theorem needs it. -/

structure DFrame where
  nrows : Nat
  cols : List (String × List String)

/-- Every column agrees with the row count. -/
def DFrame.WF (df : DFrame) : Prop :=
  ∀ c ∈ df.cols, c.2.length = df.nrows

instance (df : DFrame) : Decidable df.WF := by
  unfold DFrame.WF; infer_instance

/-- `df[name]` for a string-valued frame: the first column with the
given name (pipeline tables have distinct column names). -/
def lookupCol (cols : List (String × List String)) (name : String) :
    Option (List String) :=
  (cols.find? (fun c => c.1 == name)).map Prod.snd

/-- Distinct-value count of a column: `Series.nunique` on a string
column (`dropna=False` and `dropna=True` agree — there are no nulls). -/
def nuniqueL (l : List String) : Nat := l.dedup.length

/-! ### Column Normalizer (`deduplicate_columns`, parse_bioproject.py:46-61)

`df.dropna(axis=1, how="all")` is the identity on a string-cell frame
(no cell is null), so the modelled passes are: keep columns with more
than one distinct value (`nunique(dropna=False) > 1`), then drop
columns whose value tuple was already seen (`tuple(df[c].astype(str)
.fillna("NA").values)` — the identity coercion on string cells),
keeping the first occurrence. -/

/-- Constant/empty-column pass: `df.loc[:, nunique > 1]`. -/
def filterNonConstant (cols : List (String × List String)) :
    List (String × List String) :=
  cols.filter (fun c => 1 < nuniqueL c.2)

/-- Duplicate pass: the `seen`/`keep` loop of `deduplicate_columns`. -/
def dedupeKeep (seen : List (List String)) :
    List (String × List String) → List (String × List String)
  | [] => []
  | c :: rest =>
    if c.2 ∈ seen then dedupeKeep seen rest
    else c :: dedupeKeep (c.2 :: seen) rest

/-- `deduplicate_columns` (parse_bioproject.py:46-61).  `df is None or
df.empty` (zero rows or zero columns) returns the frame unchanged. -/
def deduplicate_columns (df : DFrame) : DFrame :=
  if df.nrows = 0 ∨ df.cols = [] then df
  else { df with cols := dedupeKeep [] (filterNonConstant df.cols) }

/-! ### Candidate Selector (`select_grouping_candidate_cols`,
parse_bioproject.py:139-154) -/

/-- The identifier/download exclusion substrings, in source order. -/
def exclude_keys : List String :=
  ["acc", "accession", "run", "srr", "srx", "srs", "sra", "gsm", "samn",
   "ftp", "http", "url", "md5", "download", "size"]

/-- `select_grouping_candidate_cols`: empty frames yield `[]`; a column
is a candidate when its lower-cased name contains no exclusion key and
its distinct-value count `k` satisfies `2 <= k <= min(10, max(2, n // 2))`. -/
def select_grouping_candidate_cols (df : DFrame) : List String :=
  if df.nrows = 0 ∨ df.cols = [] then []
  else
    df.cols.filterMap (fun c =>
      if exclude_keys.any (fun k => containsSub (lowerL c.1.data) k.data) then none
      else
        let k := nuniqueL c.2
        if 2 ≤ k ∧ k ≤ min 10 (max 2 (df.nrows / 2)) then some c.1 else none)

/-! ### Rule Engine (parse_bioproject.py:298-312)

A parsed oracle rule (`grouping_columns` entry).  `rule.get("column_name")`
may be absent (`none`); `grouping_logic` is the ordered pattern→label
mapping exactly as received (Python dicts preserve insertion order). -/

structure GroupingRule where
  column_name : Option String
  grouping_logic : List (String × String)
  confidence : Option String
  reason : Option String

/-- Pattern-key prefix test: Python `patt.startswith("regex:")`. -/
def hasRegexTag (patt : String) : Bool :=
  startsWithL "regex:".data patt.data

/-- Per-row pattern matching (parse_bioproject.py:307-311): a
`regex:`-tagged key matches case-insensitively anywhere in the value
(`Series.str.contains(pat, case=False)`, literal-pattern fragment); an
untagged key is exact case-sensitive string equality. -/
def matchPattern (patt v : String) : Bool :=
  if hasRegexTag patt then ciContains v.data (patt.data.drop 6)
  else v == patt

/-- Applying one rule's logic to one column of values
(parse_bioproject.py:303,306-312): initialize every cell to `"NA"`, then
for each pattern in received order overwrite the matching cells with the
normalized label. -/
def applyLogicCol (logic : List (String × String)) (colvals : List String) :
    List String :=
  logic.foldl
    (fun acc pl =>
      List.zipWith
        (fun v cur => if matchPattern pl.1 v then normalize_group_label pl.2 else cur)
        colvals acc)
    (colvals.map (fun _ => "NA"))

/-- The guard `if cname and cname in df_meta_full.columns`: Python
falsiness makes a missing or empty `column_name` skip matching. -/
def lookupRuleCol (df : DFrame) : Option String → Option (List String)
  | none => none
  | some s => if s = "" then none else lookupCol df.cols s

/-- Output column name: `"group" if i == 0 else f"subgroup{i}"`. -/
def groupColName (i : Nat) : String :=
  if i = 0 then "group" else "subgroup" ++ toString i

/-- The values the engine writes for one rule: matching when the rule's
column is present, otherwise the untouched `"NA"` initialization. -/
def ruleColVals (df : DFrame) (r : GroupingRule) : List String :=
  match lookupRuleCol df r.column_name with
  | some colvals => applyLogicCol r.grouping_logic colvals
  | none => List.replicate df.nrows "NA"

/-- The `for i, rule in enumerate(grouping)` loop, with the running
index made explicit. -/
def ruleEngineAux (df : DFrame) : Nat → List GroupingRule →
    List (String × List String)
  | _, [] => []
  | i, r :: rest => (groupColName i, ruleColVals df r) :: ruleEngineAux df (i + 1) rest

/-- The Rule Engine: the group/subgroup columns appended to `df_sample`
by parse_bioproject.py:298-312, matched against `df_meta_full`. -/
def ruleEngine (df : DFrame) (rules : List GroupingRule) :
    List (String × List String) :=
  ruleEngineAux df 0 rules

/-! ### Sample table and workbook assembly (parse_bioproject.py:289-316,
367-386)

Only the structure the claims speak about is modelled: the sample-table
column layout, the presence of the `grouping_rules` sheet, and the exit
code.  The `metadata` and `bioproject` sheets are plumbing (their cell
contents never feed back into the core).  When neither a run nor a
biosample column is found, pandas would reject the all-scalar frame
constructor; that configuration never occurs on pysradb output and is
outside the modelled fragment. -/

/-- The run-accession column picker (parse_bioproject.py:290): matches
`re.search(r"(^|_)run(_|$)|run_accession", c, re.I)` on a column name —
after lower-casing, either `run_accession` occurs, or `run` occurs
delimited by start/underscore on the left and end/underscore on the
right. -/
def boundedRunAux : Option Char → List Char → Bool
  | prev, c1 :: rest =>
    (match rest with
     | c2 :: c3 :: rest2 =>
       c1 == 'r' && c2 == 'u' && c3 == 'n' &&
       (match prev with | none => true | some c => c == '_') &&
       (match rest2 with | [] => true | c4 :: _ => c4 == '_')
     | _ => false)
    || boundedRunAux (some c1) rest
  | _, [] => false

/-- Column-name test for the run-accession picker. -/
def runColMatch (name : String) : Bool :=
  let l := lowerL name.data
  containsSub l "run_accession".data || boundedRunAux none l

/-- Column-name test for the biosample picker (`"biosample" in c.lower()`). -/
def bioColMatch (name : String) : Bool :=
  containsSub (lowerL name.data) "biosample".data

/-- The `run_accession`/`biosample` base of `df_sample`
(parse_bioproject.py:290-296): the first matching column of
`df_meta_full`, or a column of `"NA"` when absent. -/
def baseSampleCols (dfFull : DFrame) : List (String × List String) :=
  let pick := fun (p : String → Bool) =>
    match dfFull.cols.find? (fun c => p c.1) with
    | some c => c.2
    | none => List.replicate dfFull.nrows "NA"
  [("run_accession", pick runColMatch), ("biosample", pick bioColMatch)]

/-- The candidate reference columns re-joined for context
(parse_bioproject.py:314-315): `df_meta[keep_group_cols]`. -/
def refCols (dfMeta : DFrame) : List (String × List String) :=
  (select_grouping_candidate_cols dfMeta).map
    (fun name => (name, (lookupCol dfMeta.cols name).getD []))

/-- The `sampletable` sheet (parse_bioproject.py:293-316): identifiers,
then the Rule Engine's group/subgroup columns (none when the rule list
is empty — `if grouping:`), then the candidate reference columns. -/
def sampletable (dfFull dfMeta : DFrame) (grouping : List GroupingRule) :
    List (String × List String) :=
  baseSampleCols dfFull ++ ruleEngine dfFull grouping ++ refCols dfMeta

/-- The modelled workbook: sample table plus the optional
rule-documentation sheet (parse_bioproject.py:367-378: one row per
received rule, built only when `grouping` is non-empty). -/
structure Workbook where
  sampletableSheet : List (String × List String)
  rulesSheet : Option (List (Option String × List (String × String) ×
    Option String × Option String))

/-- Sheet names in writing order (parse_bioproject.py:381-386). -/
def Workbook.sheetNames (wb : Workbook) : List String :=
  ["metadata", "bioproject", "sampletable"] ++
    (match wb.rulesSheet with | some _ => ["grouping_rules"] | none => [])

/-- Workbook assembly from the parsed grouping rules. -/
def buildWorkbook (dfFull dfMeta : DFrame) (grouping : List GroupingRule) :
    Workbook :=
  { sampletableSheet := sampletable dfFull dfMeta grouping
    rulesSheet :=
      if grouping.isEmpty then none
      else some (grouping.map (fun r =>
        (r.column_name, r.grouping_logic, r.confidence, r.reason))) }

/-- Outcome of the oracle call and response parse
(parse_bioproject.py:274-287): the call may raise (caught at line 286),
the reply may contain no `{...}` object (`re.search` returns `None`), or
a rule list is parsed (`grouping_columns` missing parses as `[]`). -/
inductive OracleOutcome where
  | failure (msg : String)
  | noJson
  | parsed (grouping : List GroupingRule)

/-- The rules reaching the Rule Engine: `grouping` stays `[]` on failure
or an unusable reply (parse_bioproject.py:275,278-285). -/
def groupingOf : OracleOutcome → List GroupingRule
  | .failure _ => []
  | .noJson => []
  | .parsed g => g

/-- Python `sep.join(xs)`. -/
def joinSep (sep : String) : List String → String
  | [] => ""
  | [x] => x
  | x :: xs => x ++ sep ++ joinSep sep xs

/-- The `grouping` summary cell of the bioproject sheet
(parse_bioproject.py:358):
`", ".join([r.get("column_name") for r in grouping]) if grouping else "NA"`.
When `grouping` is non-empty and some entry has no `column_name`,
`str.join` receives `None` and raises an uncaught `TypeError`, so the
run aborts before any sheet is written. -/
def groupingSummaryCell (grouping : List GroupingRule) :
    Except String String :=
  if grouping.isEmpty then .ok "NA"
  else if grouping.all (fun r => r.column_name.isSome) then
    .ok (joinSep ", " (grouping.map (fun r => r.column_name.getD "")))
  else
    .error "TypeError: sequence item of str.join is None (parse_bioproject.py:358)"

/-- The post-prompt pipeline tail: the oracle failure is absorbed inside
`main` (parse_bioproject.py:286-287), so an empty rule set still yields
a workbook; building the bioproject summary (line 358, before the Excel
write at line 381) can raise on a rule with no `column_name`, and that
exception is uncaught inside `main`, so it surfaces as `.error` (the
top-level handler at parse_bioproject.py:393-398 then exits 1 with no
workbook written). -/
def runPipeline (dfFull dfMeta : DFrame) (o : OracleOutcome) :
    Except String Workbook :=
  match groupingSummaryCell (groupingOf o) with
  | .error e => .error e
  | .ok _ => .ok (buildWorkbook dfFull dfMeta (groupingOf o))

/-- Process exit code (parse_bioproject.py:393-398): 0 on a normal
return from `main`, 1 when an exception escapes. -/
def exitCode : Except String Workbook → Nat
  | .ok _ => 0
  | .error _ => 1

/-! ### Spec-side definitions

These follow the specification's words, for comparison against the
source-side definitions above. -/

/-- Spec wording of a case-insensitive substring match of `p` inside `v`. -/
def CIMatches (p v : List Char) : Prop :=
  ∃ u w, lowerL v = u ++ lowerL p ++ w

/-- Spec wording of the candidate predicate (§4.2): the name contains no
identifier/download exclude substring (case-insensitively), and the
distinct-value count `k` satisfies `2 ≤ k ≤ min(10, max(2, n/2))`. -/
def specCandidate (n : Nat) (c : String × List String) : Bool :=
  exclude_keys.all (fun k => !containsSub (lowerL c.1.data) k.data) &&
    decide (2 ≤ nuniqueL c.2 ∧ nuniqueL c.2 ≤ min 10 (max 2 (n / 2)))

/-- Spec wording (§4.5) of a well-formed rule entry: `column_name`
present and naming a column of the table, and a non-empty
`grouping_logic`. -/
def specValidEntry (df : DFrame) (r : GroupingRule) : Bool :=
  (match r.column_name with
   | some s => !(s == "") && (lookupCol df.cols s).isSome
   | none => false) && !r.grouping_logic.isEmpty

/-- Spec wording (§4.5) of the Rule Engine fed by a validating parser:
malformed entries are dropped before application, so the remaining
entries are renumbered. -/
def ruleEngineSpecDropping (df : DFrame) (rules : List GroupingRule) :
    List (String × List String) :=
  ruleEngine df (rules.filter (specValidEntry df))

/-- Per-cell form of one rule's logic: the fold the pattern loop
performs on a single value, starting from the `"NA"` initialization. -/
def cellApply (logic : List (String × String)) (v : String) : String :=
  logic.foldl
    (fun cur pl => if matchPattern pl.1 v then normalize_group_label pl.2 else cur)
    "NA"

/-! ### Concrete fixtures (used by witnesses and counterexamples) -/

/-- A small sample frame: one plausible grouping column and one constant
reference column, four rows. -/
def dfDemo : DFrame :=
  ⟨4, [("condition", ["healthy", "healthy", "severe disease stage 2", "NA"]),
       ("tissue", ["PBMC", "PBMC", "lung", "lung"])]⟩

/-- A well-formed oracle rule over `dfDemo`'s `condition` column. -/
def ruleDemoGood : GroupingRule :=
  ⟨some "condition",
   [("regex:disease", "Disease"), ("regex:severe disease", "SevereDisease")],
   some "High", some "later pattern is more specific"⟩

/-- A malformed oracle rule: `column_name` missing. -/
def ruleDemoBad : GroupingRule := ⟨none, [("x", "Y")], none, none⟩

/-- A rule referencing a column absent from `dfDemo`. -/
def ruleDemoAbsent : GroupingRule := ⟨some "age", [("x", "Y")], none, none⟩

/-- A zero-row frame with two (trivially identical) columns. -/
def dfEmptyDup : DFrame := ⟨0, [("a", []), ("b", [])]⟩

/-! ### Helper lemmas -/

theorem startsWithL_iff (p : List Char) : ∀ l : List Char,
    startsWithL p l = true ↔ ∃ w, l = p ++ w := by
  induction p with
  | nil => intro l; simp [startsWithL]
  | cons x ps ih =>
    intro l
    cases l with
    | nil => simp [startsWithL]
    | cons y t =>
      simp only [startsWithL, Bool.and_eq_true, beq_iff_eq]
      constructor
      · rintro ⟨rfl, hs⟩
        obtain ⟨w, rfl⟩ := (ih t).1 hs
        exact ⟨w, rfl⟩
      · rintro ⟨w, h⟩
        rw [List.cons_append] at h
        injection h with h1 h2
        exact ⟨h1.symm, (ih t).2 ⟨w, h2⟩⟩

theorem containsSub_iff (pat : List Char) : ∀ hay : List Char,
    containsSub hay pat = true ↔ ∃ u w, hay = u ++ pat ++ w := by
  intro hay
  induction hay with
  | nil =>
    simp only [containsSub, List.isEmpty_iff]
    constructor
    · rintro rfl; exact ⟨[], [], rfl⟩
    · rintro ⟨u, w, h⟩
      rcases List.append_eq_nil.1 h.symm with ⟨h1, h2⟩
      exact (List.append_eq_nil.1 h1).2
  | cons c t ih =>
    rw [containsSub]
    simp only [Bool.or_eq_true]
    constructor
    · rintro (hs | hc)
      · obtain ⟨w, hw⟩ := (startsWithL_iff pat _).1 hs
        exact ⟨[], w, hw⟩
      · obtain ⟨u, w, hw⟩ := ih.1 hc
        exact ⟨c :: u, w, by rw [hw]; rfl⟩
    · rintro ⟨u, w, hw⟩
      cases u with
      | nil =>
        left
        exact (startsWithL_iff pat _).2 ⟨w, by simpa using hw⟩
      | cons u0 us =>
        right
        rw [List.cons_append, List.cons_append] at hw
        injection hw with h1 h2
        exact ih.2 ⟨us, w, by simpa using h2⟩

theorem applyLogicCol_eq_map (logic : List (String × String))
    (colvals : List String) :
    applyLogicCol logic colvals = colvals.map (cellApply logic) := by
  have key : ∀ (lg : List (String × String)) (f : String → String),
      lg.foldl
        (fun acc pl =>
          List.zipWith
            (fun v cur => if matchPattern pl.1 v then normalize_group_label pl.2 else cur)
            colvals acc)
        (colvals.map f)
      = colvals.map (fun v =>
          lg.foldl
            (fun cur pl => if matchPattern pl.1 v then normalize_group_label pl.2 else cur)
            (f v)) := by
    intro lg
    induction lg with
    | nil => intro f; simp
    | cons pl rest ih =>
      intro f
      simp only [List.foldl_cons]
      rw [List.zipWith_map_right, List.zipWith_same, ih]
  exact key logic (fun _ => "NA")

theorem foldl_if_eq_findRev (v : String) (logic : List (String × String)) :
    ∀ init : String,
      logic.foldl
        (fun cur pl => if matchPattern pl.1 v then normalize_group_label pl.2 else cur)
        init
      = (logic.reverse.find? (fun pl => matchPattern pl.1 v)).elim init
          (fun pl => normalize_group_label pl.2) := by
  induction logic with
  | nil => intro init; rfl
  | cons x xs ih =>
    intro init
    simp only [List.foldl_cons, List.reverse_cons, List.find?_append]
    rw [ih]
    cases h : xs.reverse.find? (fun pl => matchPattern pl.1 v) with
    | some y => simp [Option.or]
    | none =>
      by_cases hx : matchPattern x.1 v
      · rw [if_pos hx]
        have hf : List.find? (fun pl => matchPattern pl.1 v) [x] = some x :=
          List.find?_cons_of_pos _ (by simpa using hx)
        rw [hf]
        rfl
      · rw [if_neg hx]
        have hf : List.find? (fun pl => matchPattern pl.1 v) [x] = none := by
          rw [List.find?_cons_of_neg _ (by simpa using hx)]
          rfl
        rw [hf]
        rfl

theorem cellApply_eq_lastMatch (logic : List (String × String)) (v : String) :
    cellApply logic v
      = (logic.reverse.find? (fun pl => matchPattern pl.1 v)).elim "NA"
          (fun pl => normalize_group_label pl.2) :=
  foldl_if_eq_findRev v logic "NA"

theorem ruleEngineAux_getElem? (df : DFrame) :
    ∀ (rules : List GroupingRule) (i0 j : Nat),
      (ruleEngineAux df i0 rules)[j]?
        = rules[j]?.map (fun r => (groupColName (i0 + j), ruleColVals df r)) := by
  intro rules
  induction rules with
  | nil => intro i0 j; simp [ruleEngineAux]
  | cons r rest ih =>
    intro i0 j
    cases j with
    | zero => simp [ruleEngineAux]
    | succ j1 =>
      have harith : i0 + 1 + j1 = i0 + (j1 + 1) := by omega
      simp only [ruleEngineAux, List.getElem?_cons_succ]
      rw [ih (i0 + 1) j1, harith]

theorem dedupeKeep_mem : ∀ (seen : List (List String))
    (l : List (String × List String)) (c : String × List String),
    c ∈ dedupeKeep seen l → c ∈ l ∧ c.2 ∉ seen := by
  intro seen l
  induction l generalizing seen with
  | nil => intro c hc; simp [dedupeKeep] at hc
  | cons d t ih =>
    intro c hc
    by_cases hd : d.2 ∈ seen
    · rw [dedupeKeep, if_pos hd] at hc
      obtain ⟨h1, h2⟩ := ih seen c hc
      exact ⟨.tail _ h1, h2⟩
    · rw [dedupeKeep, if_neg hd] at hc
      rcases List.mem_cons.1 hc with rfl | hc2
      · exact ⟨.head _, hd⟩
      · obtain ⟨h1, h2⟩ := ih (d.2 :: seen) c hc2
        exact ⟨.tail _ h1, fun hs => h2 (.tail _ hs)⟩

theorem dedupeKeep_pairwise : ∀ (seen : List (List String))
    (l : List (String × List String)),
    (dedupeKeep seen l).Pairwise (fun a b => a.2 ≠ b.2) := by
  intro seen l
  induction l generalizing seen with
  | nil => simp [dedupeKeep]
  | cons d t ih =>
    by_cases hd : d.2 ∈ seen
    · rw [dedupeKeep, if_pos hd]; exact ih seen
    · rw [dedupeKeep, if_neg hd]
      refine List.pairwise_cons.2 ⟨fun b hb => ?_, ih _⟩
      have h2 := (dedupeKeep_mem _ _ _ hb).2
      exact fun he => h2 (he ▸ List.mem_cons_self _ _)

theorem dedupeKeep_find? : ∀ (seen : List (List String))
    (l : List (String × List String)) (c : String × List String),
    c ∈ dedupeKeep seen l → l.find? (fun d => d.2 == c.2) = some c := by
  intro seen l
  induction l generalizing seen with
  | nil => intro c hc; simp [dedupeKeep] at hc
  | cons d t ih =>
    intro c hc
    by_cases hd : d.2 ∈ seen
    · rw [dedupeKeep, if_pos hd] at hc
      have h2 := (dedupeKeep_mem seen t c hc).2
      have hne : ¬(d.2 == c.2) = true := by
        simp only [beq_iff_eq]
        exact fun he => h2 (he ▸ hd)
      have hstep : List.find? (fun e => e.2 == c.2) (d :: t)
          = List.find? (fun e => e.2 == c.2) t :=
        List.find?_cons_of_neg _ hne
      rw [hstep]
      exact ih seen c hc
    · rw [dedupeKeep, if_neg hd] at hc
      rcases List.mem_cons.1 hc with rfl | hc2
      · exact List.find?_cons_of_pos _ (by simp)
      · have h2 := (dedupeKeep_mem (d.2 :: seen) t c hc2).2
        have hne : ¬(d.2 == c.2) = true := by
          simp only [beq_iff_eq]
          exact fun he => h2 (he ▸ List.mem_cons_self _ _)
        have hstep : List.find? (fun e => e.2 == c.2) (d :: t)
            = List.find? (fun e => e.2 == c.2) t :=
          List.find?_cons_of_neg _ hne
        rw [hstep]
        exact ih _ c hc2

theorem dedupeKeep_complete : ∀ (seen : List (List String))
    (l : List (String × List String)) (c : String × List String),
    c ∈ l → c.2 ∈ seen ∨ ∃ e ∈ dedupeKeep seen l, e.2 = c.2 := by
  intro seen l
  induction l generalizing seen with
  | nil => intro c hc; simp at hc
  | cons d t ih =>
    intro c hc
    by_cases hd : d.2 ∈ seen
    · rw [dedupeKeep, if_pos hd]
      rcases List.mem_cons.1 hc with rfl | hc2
      · exact .inl hd
      · exact ih seen c hc2
    · rw [dedupeKeep, if_neg hd]
      rcases List.mem_cons.1 hc with rfl | hc2
      · exact .inr ⟨c, .head _, rfl⟩
      · rcases ih (d.2 :: seen) c hc2 with hs | ⟨e, he, h2⟩
        · rcases List.mem_cons.1 hs with h | h
          · exact .inr ⟨d, .head _, h.symm⟩
          · exact .inl h
        · exact .inr ⟨e, .tail _ he, h2⟩

theorem dropWhile_append_all (p : Char → Bool) (l : List Char) :
    ∀ a : List Char, (∀ x ∈ a, p x = true) →
      (a ++ l).dropWhile p = l.dropWhile p := by
  intro a
  induction a with
  | nil => intro _; rfl
  | cons x t ih =>
    intro h
    rw [List.cons_append, List.dropWhile_cons, if_pos (h x (.head _))]
    exact ih fun y hy => h y (.tail _ hy)

theorem isSpaceB_toLower_self (x : Char) (h : isSpaceB x = true) :
    Char.toLower x = x := by
  simp only [isSpaceB, Bool.or_eq_true, beq_iff_eq] at h
  rcases h with ((((rfl | rfl) | rfl) | rfl) | rfl) | rfl <;> decide

theorem isSpaceB_false_of_toLower_eq (x c : Char) (hx : Char.toLower x = c)
    (hc : isSpaceB c = false) : isSpaceB x = false := by
  by_contra hcon
  have ht : isSpaceB x = true := by
    revert hcon; cases isSpaceB x <;> simp
  rw [isSpaceB_toLower_self x ht] at hx
  rw [hx] at ht
  rw [ht] at hc
  exact Bool.noConfusion hc

/-! ### Claim theorems -/

/-- C1: the Rule Engine applies a rule's pattern→label pairs in exactly
the order received, and a later matching pattern overwrites the
assignment of an earlier one on the same row (last-match-wins): every
written cell equals the normalized label of the *last* pattern in the
received order that matches the row's value, `"NA"` when none matches.
In particular the rule `[regex:"disease" → "Disease",
regex:"severe disease" → "SevereDisease"]` applied to the value
`"severe disease stage 2"` yields `"SevereDisease"`. -/
theorem c1_pattern_order_last_match_wins :
    (∀ (logic : List (String × String)) (colvals : List String) (j : Nat) (v : String),
        colvals[j]? = some v →
        (applyLogicCol logic colvals)[j]?
          = some ((logic.reverse.find? (fun pl => matchPattern pl.1 v)).elim "NA"
              (fun pl => normalize_group_label pl.2))) ∧
    applyLogicCol
      [("regex:disease", "Disease"), ("regex:severe disease", "SevereDisease")]
      ["severe disease stage 2"] = ["SevereDisease"] := by
  constructor
  · intro logic colvals j v hv
    rw [applyLogicCol_eq_map, List.getElem?_map, hv, Option.map_some']
    rw [cellApply_eq_lastMatch]
  · decide

/-- C1 witness: the universal part instantiated on the claim's own
precedence example. -/
theorem c1_witness :
    (applyLogicCol
        [("regex:disease", "Disease"), ("regex:severe disease", "SevereDisease")]
        ["severe disease stage 2"])[0]?
      = some ((([("regex:disease", "Disease"),
            ("regex:severe disease", "SevereDisease")] :
              List (String × String)).reverse.find?
            (fun pl => matchPattern pl.1 "severe disease stage 2")).elim "NA"
          (fun pl => normalize_group_label pl.2)) :=
  c1_pattern_order_last_match_wins.1 _ _ 0 "severe disease stage 2" rfl

/-- C2: a pattern key tagged `regex:<p>` matches exactly the values
containing `<p>` case-insensitively (substring reading of the literal
regex fragment), and an untagged pattern key matches exactly under
case-sensitive string equality. -/
theorem c2_pattern_matching_semantics (patt v : String) :
    (hasRegexTag patt = true →
      (matchPattern patt v = true ↔ CIMatches (patt.data.drop 6) v.data)) ∧
    (hasRegexTag patt = false →
      (matchPattern patt v = true ↔ v = patt)) := by
  constructor
  · intro ht
    rw [matchPattern, if_pos ht]
    exact containsSub_iff _ _
  · intro hf
    rw [matchPattern, if_neg (by rw [hf]; exact Bool.noConfusion)]
    exact beq_iff_eq

/-- C2 witness: the regex-tagged branch on a mixed-case value and the
untagged branch on an exact value. -/
theorem c2_witness :
    (matchPattern "regex:disease" "severe Disease stage 2" = true ↔
      CIMatches ("regex:disease".data.drop 6) "severe Disease stage 2".data) ∧
    (matchPattern "healthy" "healthy" = true ↔ ("healthy" : String) = "healthy") :=
  ⟨(c2_pattern_matching_semantics "regex:disease" "severe Disease stage 2").1 rfl,
   (c2_pattern_matching_semantics "healthy" "healthy").2 rfl⟩

/-- C3: the rule at position `i` produces the output column named
`group` for `i = 0` and `subgroup{i}` otherwise; the column is
initialized to the sentinel `"NA"` (a missing rule column leaves it all
`"NA"`), and a row matching none of the rule's patterns keeps `"NA"`. -/
theorem c3_output_column_name_and_sentinel (df : DFrame)
    (rules : List GroupingRule) (i : Nat) (r : GroupingRule)
    (hr : rules[i]? = some r) :
    ∃ vals : List String, (ruleEngine df rules)[i]?
        = some ((if i = 0 then "group" else "subgroup" ++ toString i), vals) ∧
      (lookupRuleCol df r.column_name = none →
        vals = List.replicate df.nrows "NA") ∧
      (∀ colvals : List String, lookupRuleCol df r.column_name = some colvals →
        ∀ (j : Nat) (v : String), colvals[j]? = some v →
        (∀ pl ∈ r.grouping_logic, matchPattern pl.1 v = false) →
        vals[j]? = some "NA") := by
  refine ⟨ruleColVals df r, ?_, ?_, ?_⟩
  · rw [ruleEngine, ruleEngineAux_getElem? df rules 0 i, hr, Option.map_some']
    rw [groupColName, Nat.zero_add]
  · intro hnone
    rw [ruleColVals, hnone]
  · intro colvals hsome j v hv hnomatch
    rw [ruleColVals, hsome]
    show (applyLogicCol r.grouping_logic colvals)[j]? = some "NA"
    rw [applyLogicCol_eq_map, List.getElem?_map, hv, Option.map_some']
    rw [cellApply_eq_lastMatch]
    have hfind : r.grouping_logic.reverse.find?
        (fun pl => matchPattern pl.1 v) = none :=
      List.find?_eq_none.2 fun pl hpl => by
        rw [hnomatch pl (List.mem_reverse.1 hpl)]
        exact Bool.noConfusion
    rw [hfind]
    rfl

/-- C3 witness: position 1 of a two-rule list over `dfDemo` (the second
rule references an absent column, so its `subgroup1` column stays
entirely `"NA"`). -/
theorem c3_witness :
    ∃ vals : List String, (ruleEngine dfDemo [ruleDemoGood, ruleDemoAbsent])[1]?
        = some ((if 1 = 0 then "group" else "subgroup" ++ toString 1), vals) ∧
      (lookupRuleCol dfDemo ruleDemoAbsent.column_name = none →
        vals = List.replicate dfDemo.nrows "NA") ∧
      (∀ colvals : List String, lookupRuleCol dfDemo ruleDemoAbsent.column_name = some colvals →
        ∀ (j : Nat) (v : String), colvals[j]? = some v →
        (∀ pl ∈ ruleDemoAbsent.grouping_logic, matchPattern pl.1 v = false) →
        vals[j]? = some "NA") :=
  c3_output_column_name_and_sentinel dfDemo [ruleDemoGood, ruleDemoAbsent] 1
    ruleDemoAbsent rfl

/-- C4: a rule whose `column_name` is absent from the table still
produces its output column, with every cell equal to the sentinel
`"NA"`; the engine is a total function, so no error is raised and the
pipeline continues. -/
theorem c4_missing_column_all_na (df : DFrame) (rules : List GroupingRule)
    (i : Nat) (r : GroupingRule) (hr : rules[i]? = some r)
    (s : String) (hs : r.column_name = some s)
    (habs : lookupCol df.cols s = none) :
    (ruleEngine df rules)[i]?
      = some (groupColName i, List.replicate df.nrows "NA") := by
  rw [ruleEngine, ruleEngineAux_getElem? df rules 0 i, hr, Option.map_some']
  rw [Nat.zero_add, ruleColVals]
  have hlook : lookupRuleCol df r.column_name = none := by
    rw [hs, lookupRuleCol]
    by_cases he : s = ""
    · rw [if_pos he]
    · rw [if_neg he, habs]
  rw [hlook]

/-- C4 witness: the absent-column rule `ruleDemoAbsent` on `dfDemo`. -/
theorem c4_witness :
    (ruleEngine dfDemo [ruleDemoAbsent])[0]?
      = some (groupColName 0, List.replicate dfDemo.nrows "NA") :=
  c4_missing_column_all_na dfDemo [ruleDemoAbsent] 0 ruleDemoAbsent rfl
    "age" rfl rfl

/-- C5 counterexample: the Label Normalizer is not idempotent on every
input.  `normalize("group")` deletes the standalone word and returns
the empty string `""`, but normalizing `""` again returns the sentinel
`"NA"`, so `normalize(normalize("group")) ≠ normalize("group")`. -/
theorem c5_counterexample :
    ¬ normalize_group_label (normalize_group_label "group")
        = normalize_group_label "group" := by
  decide

/-- C5 amended: all the claim's concrete equations hold, and the
normalizer is idempotent at each of their outputs; only the universal
idempotence fails (see the counterexample at input `"group"`). -/
theorem c5_amended :
    normalize_group_label "Control group" = "Control" ∧
    normalize_group_label "Control" = "Control" ∧
    normalize_group_label "第7天" = "day7" ∧
    normalize_group_label "day7" = "day7" ∧
    normalize_group_label "timepoint 3" = "day3" ∧
    normalize_group_label "day3" = "day3" ∧
    normalize_group_label "" = "NA" ∧
    normalize_group_label "NA" = "NA" ∧
    normalize_group_label "na" = "NA" ∧
    normalize_group_label "nA" = "NA" ∧
    normalize_group_label "Na" = "NA" := by
  decide

theorem nuniqueL_le_one_of_all_eq (l : List String) (x : String)
    (h : ∀ v ∈ l, v = x) : nuniqueL l ≤ 1 := by
  rw [nuniqueL]
  cases hd : l.dedup with
  | nil => simp
  | cons a t =>
    cases t with
    | nil => simp
    | cons b t2 =>
      exfalso
      have hnd := l.nodup_dedup
      rw [hd] at hnd
      have ha : a ∈ l := List.mem_dedup.1 (by rw [hd]; exact .head _)
      have hb : b ∈ l := List.mem_dedup.1 (by rw [hd]; exact .tail _ (.head _))
      have hab : a = b := (h a ha).trans (h b hb).symm
      rw [List.nodup_cons] at hnd
      exact hnd.1 (by rw [hab]; exact List.mem_cons_self _ _)

/-- C6 counterexample: the Column Normalizer does not guarantee the
absence of duplicate columns on every MetadataTable.  A zero-row table
is `df.empty` in pandas and is returned unchanged
(parse_bioproject.py:48-49), so its two columns survive with identical
(empty) row-wise value sequences. -/
theorem c6_counterexample :
    (deduplicate_columns dfEmptyDup).cols = [("a", []), ("b", [])] ∧
    ¬ (deduplicate_columns dfEmptyDup).cols.Pairwise
        (fun c d => c.2 ≠ d.2) := by
  constructor
  · rfl
  · decide

/-- C6 amended: for every MetadataTable with at least one row, the
Column Normalizer's output has no entirely-empty column, no column with
fewer than two distinct values, and no two columns with identical
row-wise value sequences; the kept representative of each duplicate
class is the leftmost (first by `find?`) among the constant-filtered
columns, and every surviving input column is represented.  (A zero-row
table is returned unchanged — see the counterexample.) -/
theorem c6_amended (df : DFrame) (hn : 0 < df.nrows) :
    (∀ c ∈ (deduplicate_columns df).cols, ¬ (∀ v ∈ c.2, v = "")) ∧
    (∀ c ∈ (deduplicate_columns df).cols, 2 ≤ nuniqueL c.2) ∧
    (deduplicate_columns df).cols.Pairwise (fun c d => c.2 ≠ d.2) ∧
    (∀ c ∈ (deduplicate_columns df).cols,
      (filterNonConstant df.cols).find? (fun e => e.2 == c.2) = some c) ∧
    (∀ c ∈ filterNonConstant df.cols,
      ∃ e ∈ (deduplicate_columns df).cols, e.2 = c.2) := by
  by_cases hcols : df.cols = []
  · rw [deduplicate_columns, if_pos (Or.inr hcols)]
    refine ⟨?_, ?_, ?_, ?_, ?_⟩ <;>
      simp [hcols, filterNonConstant]
  · have hguard : ¬ (df.nrows = 0 ∨ df.cols = []) := by
      rintro (h0 | hnil)
      · omega
      · exact hcols hnil
    rw [deduplicate_columns, if_neg hguard]
    have hmemflt : ∀ c ∈ dedupeKeep [] (filterNonConstant df.cols),
        2 ≤ nuniqueL c.2 := by
      intro c hc
      have hmem := (dedupeKeep_mem [] _ c hc).1
      have hflt := (List.mem_filter.1 hmem).2
      have := of_decide_eq_true hflt
      omega
    refine ⟨?_, ?_, ?_, ?_, ?_⟩
    · intro c hc hall
      have h2 := hmemflt c hc
      have hle := nuniqueL_le_one_of_all_eq c.2 "" hall
      omega
    · exact hmemflt
    · exact dedupeKeep_pairwise [] _
    · intro c hc
      exact dedupeKeep_find? [] _ c hc
    · intro c hc
      rcases dedupeKeep_complete [] _ c hc with hs | h
      · simp at hs
      · exact h

/-- C6 witness: the amended theorem instantiated on the demo frame. -/
theorem c6_witness :
    (∀ c ∈ (deduplicate_columns dfDemo).cols, ¬ (∀ v ∈ c.2, v = "")) ∧
    (∀ c ∈ (deduplicate_columns dfDemo).cols, 2 ≤ nuniqueL c.2) ∧
    (deduplicate_columns dfDemo).cols.Pairwise (fun c d => c.2 ≠ d.2) ∧
    (∀ c ∈ (deduplicate_columns dfDemo).cols,
      (filterNonConstant dfDemo.cols).find? (fun e => e.2 == c.2) = some c) ∧
    (∀ c ∈ filterNonConstant dfDemo.cols,
      ∃ e ∈ (deduplicate_columns dfDemo).cols, e.2 = c.2) :=
  c6_amended dfDemo (by decide)

theorem filterMap_if_eq_filter_map {α β : Type} (p : α → Bool) (g : α → β) :
    ∀ l : List α,
      l.filterMap (fun a => if p a = true then some (g a) else none)
        = (l.filter p).map g := by
  intro l
  induction l with
  | nil => rfl
  | cons a t ih =>
    by_cases hp : p a = true
    · simp [List.filterMap_cons, List.filter_cons, hp, ih]
    · simp [List.filterMap_cons, List.filter_cons, hp, ih]

/-- C7: the Candidate Selector returns exactly the columns, in table
order, whose name contains no identifier/download exclude substring
(case-insensitively) and whose distinct-value count `k` satisfies
`2 ≤ k ≤ min(10, max(2, n / 2))` with integer division. -/
theorem c7_candidate_selection (df : DFrame) (wf : df.WF) :
    select_grouping_candidate_cols df
      = (df.cols.filter (specCandidate df.nrows)).map Prod.fst := by
  rw [select_grouping_candidate_cols]
  by_cases h : df.nrows = 0 ∨ df.cols = []
  · rw [if_pos h]
    rcases h with h0 | hnil
    · symm
      rw [List.map_eq_nil_iff, List.filter_eq_nil_iff]
      intro c hc
      have hlen := wf c hc
      rw [h0] at hlen
      have hnil2 : c.2 = [] := List.eq_nil_of_length_eq_zero hlen
      rw [specCandidate, hnil2]
      simp [nuniqueL]
    · rw [hnil]; rfl
  · rw [if_neg h]
    have hpt : (fun c : String × List String =>
          if exclude_keys.any (fun k => containsSub (lowerL c.1.data) k.data)
            then none
          else
            if 2 ≤ nuniqueL c.2 ∧ nuniqueL c.2 ≤ min 10 (max 2 (df.nrows / 2))
              then some c.1 else none)
        = (fun c : String × List String =>
            if specCandidate df.nrows c = true then some c.1 else none) := by
      funext c
      by_cases hex :
          exclude_keys.any (fun k => containsSub (lowerL c.1.data) k.data) = true
      · rw [if_pos hex]
        rcases List.any_eq_true.1 hex with ⟨k, hk, hck⟩
        have hall : specCandidate df.nrows c = false := by
          rw [specCandidate]
          have : exclude_keys.all
              (fun k => !containsSub (lowerL c.1.data) k.data) = false := by
            cases hA : exclude_keys.all
                (fun k => !containsSub (lowerL c.1.data) k.data) with
            | false => rfl
            | true =>
              have := List.all_eq_true.1 hA k hk
              rw [hck] at this
              exact Bool.noConfusion this
          rw [this, Bool.false_and]
        rw [hall]
        simp
      · rw [if_neg hex]
        have hexf : exclude_keys.any
            (fun k => containsSub (lowerL c.1.data) k.data) = false := by
          cases hA : exclude_keys.any
              (fun k => containsSub (lowerL c.1.data) k.data) with
          | false => rfl
          | true => exact absurd hA hex
        have hallt : exclude_keys.all
            (fun k => !containsSub (lowerL c.1.data) k.data) = true := by
          rw [List.all_eq_true]
          intro k hk
          rcases hB : containsSub (lowerL c.1.data) k.data with _ | _
          · rfl
          · exact absurd (List.any_eq_true.2 ⟨k, hk, hB⟩) hex
        by_cases hb : 2 ≤ nuniqueL c.2 ∧
            nuniqueL c.2 ≤ min 10 (max 2 (df.nrows / 2))
        · rw [if_pos hb, specCandidate, hallt, Bool.true_and,
            decide_eq_true hb]
          rfl
        · rw [if_neg hb, specCandidate, hallt, Bool.true_and,
            decide_eq_false hb]
          simp
    rw [hpt, filterMap_if_eq_filter_map]

/-- C7 witness: the selector on the demo frame (well-formed by
computation). -/
theorem c7_witness :
    select_grouping_candidate_cols dfDemo
      = (dfDemo.cols.filter (specCandidate dfDemo.nrows)).map Prod.fst :=
  c7_candidate_selection dfDemo (by decide)

/-- C8: when the oracle call fails or returns unusable content, the
pipeline does not abort: the run still returns a workbook (exit code
0), the rule-documentation sheet is absent, and the sample table holds
exactly the identifier columns followed by the candidate reference
columns — no `group`/`subgroup` columns are interposed. -/
theorem c8_oracle_failure_degrades (dfFull dfMeta : DFrame)
    (o : OracleOutcome) (h : ∀ g, o ≠ OracleOutcome.parsed g) :
    ∃ wb : Workbook, runPipeline dfFull dfMeta o = .ok wb ∧
      exitCode (runPipeline dfFull dfMeta o) = 0 ∧
      wb.rulesSheet = none ∧
      wb.sheetNames = ["metadata", "bioproject", "sampletable"] ∧
      wb.sampletableSheet.map Prod.fst
        = ["run_accession", "biosample"]
            ++ select_grouping_candidate_cols dfMeta := by
  have hg : groupingOf o = [] := by
    cases o with
    | failure m => rfl
    | noJson => rfl
    | parsed g => exact absurd rfl (h g)
  have hrun : runPipeline dfFull dfMeta o
      = .ok (buildWorkbook dfFull dfMeta (groupingOf o)) := by
    rw [runPipeline, hg]
    rfl
  refine ⟨buildWorkbook dfFull dfMeta (groupingOf o), hrun, ?_, ?_, ?_, ?_⟩
  · rw [hrun]; rfl
  · simp [buildWorkbook, hg]
  · simp [Workbook.sheetNames, buildWorkbook, hg]
  · rw [hg]
    simp [buildWorkbook, sampletable, ruleEngine, ruleEngineAux,
      baseSampleCols, refCols, List.map_map, Function.comp_def]

/-- C8 witness: a concrete failing oracle call on the demo frame. -/
theorem c8_witness :
    ∃ wb : Workbook,
      runPipeline dfDemo dfDemo (.failure "connection timed out") = .ok wb ∧
      exitCode (runPipeline dfDemo dfDemo (.failure "connection timed out")) = 0 ∧
      wb.rulesSheet = none ∧
      wb.sheetNames = ["metadata", "bioproject", "sampletable"] ∧
      wb.sampletableSheet.map Prod.fst
        = ["run_accession", "biosample"]
            ++ select_grouping_candidate_cols dfDemo :=
  c8_oracle_failure_degrades dfDemo dfDemo (.failure "connection timed out")
    (fun _ hgg => OracleOutcome.noConfusion hgg)

/-- C9 counterexample: parse_bioproject.py neither drops a malformed
rule entry with a warning nor always survives it.  With a first entry
missing `column_name` and a well-formed second entry, the engine emits
an (all-`"NA"`) `group` column for the malformed entry and applies the
good entry at `subgroup1` — so nothing is dropped (dropping would have
produced a single `group` column from the good entry) — and then the
bioproject summary join (`", ".join([r.get("column_name") for r in
grouping])`, parse_bioproject.py:358) receives `None`, raises an
uncaught `TypeError`, and the run aborts with exit code 1 before any
sheet is written. -/
theorem c9_counterexample :
    ruleEngine dfDemo [ruleDemoBad, ruleDemoGood]
        = [("group", ["NA", "NA", "NA", "NA"]),
           ("subgroup1", ["NA", "NA", "SevereDisease", "NA"])] ∧
    ruleEngine dfDemo [ruleDemoBad, ruleDemoGood]
        ≠ ruleEngineSpecDropping dfDemo [ruleDemoBad, ruleDemoGood] ∧
    runPipeline dfDemo dfDemo (.parsed [ruleDemoBad, ruleDemoGood])
        = .error
          "TypeError: sequence item of str.join is None (parse_bioproject.py:358)" ∧
    exitCode (runPipeline dfDemo dfDemo
        (.parsed [ruleDemoBad, ruleDemoGood])) = 1 :=
  ⟨by decide, by decide, rfl, rfl⟩

/-- C9 amended: no entry is ever dropped and no warning is recorded by
parse_bioproject.py.  Every entry keeps its position: the Rule Engine
gives a malformed entry (missing or empty `column_name`, absent column,
or empty `grouping_logic`) an output column whose cells are all `"NA"`,
and applies every well-formed entry at its own position.  An entry
whose `column_name` is missing entirely aborts the whole run — the
summary join at parse_bioproject.py:358 raises an uncaught `TypeError`,
the run exits 1, and no workbook (hence no rule-documentation sheet) is
written.  When every entry carries a `column_name` string (even empty,
absent from the table, or with empty logic), the run completes with
exit code 0 and the malformed entries still appear in the
rule-documentation sheet. -/
theorem c9_amended (df : DFrame) (rules : List GroupingRule)
    (i : Nat) (r : GroupingRule) (hr : rules[i]? = some r) :
    ∃ vals : List String,
      (ruleEngine df rules)[i]? = some (groupColName i, vals) ∧
      (specValidEntry df r = false → ∀ x ∈ vals, x = "NA") ∧
      (∀ (s : String) (colvals : List String), r.column_name = some s →
        lookupCol df.cols s = some colvals → specValidEntry df r = true →
        vals = applyLogicCol r.grouping_logic colvals) ∧
      (r.column_name = none →
        ∃ e : String, runPipeline df df (.parsed rules) = .error e ∧
          exitCode (runPipeline df df (.parsed rules)) = 1) ∧
      ((∀ r2 ∈ rules, r2.column_name.isSome = true) →
        runPipeline df df (.parsed rules) = .ok (buildWorkbook df df rules) ∧
        (buildWorkbook df df rules).rulesSheet
            = some (rules.map (fun e =>
                (e.column_name, e.grouping_logic, e.confidence, e.reason))) ∧
        exitCode (runPipeline df df (.parsed rules)) = 0) := by
  have hne : rules.isEmpty = false := by
    cases rules with
    | nil => rw [List.getElem?_nil] at hr; exact Option.noConfusion hr
    | cons a t => rfl
  refine ⟨ruleColVals df r, ?_, ?_, ?_, ?_, ?_⟩
  · rw [ruleEngine, ruleEngineAux_getElem? df rules 0 i, hr, Option.map_some',
      Nat.zero_add]
  · intro hinvalid x hx
    rw [ruleColVals] at hx
    cases hlk : lookupRuleCol df r.column_name with
    | none =>
      rw [hlk] at hx
      exact List.eq_of_mem_replicate hx
    | some colvals =>
      rw [hlk] at hx
      cases hcn : r.column_name with
      | none =>
        rw [hcn] at hlk
        exact Option.noConfusion hlk
      | some s =>
        rw [hcn] at hlk
        rw [lookupRuleCol] at hlk
        by_cases hse : s = ""
        · rw [if_pos hse] at hlk
          exact Option.noConfusion hlk
        · rw [if_neg hse] at hlk
          have hlogic : r.grouping_logic = [] := by
            by_contra hE
            have hvalid : specValidEntry df r = true := by
              rw [specValidEntry, hcn]
              simp [hse, hlk, hE]
            rw [hvalid] at hinvalid
            exact Bool.noConfusion hinvalid
          rw [hlogic] at hx
          rcases List.mem_map.1 hx with ⟨y, _, hy⟩
          exact hy.symm
  · intro s colvals hcn hlook hvalid
    have hse : ¬ s = "" := by
      rw [specValidEntry, hcn] at hvalid
      simp only [Bool.and_eq_true] at hvalid
      simpa using hvalid.1.1
    rw [ruleColVals, hcn, lookupRuleCol, if_neg hse, hlook]
  · intro hnone
    have hmem : r ∈ rules := List.getElem?_mem hr
    have hallf : rules.all (fun r2 => r2.column_name.isSome) = false := by
      cases hA : rules.all (fun r2 => r2.column_name.isSome) with
      | false => rfl
      | true =>
        have hrr := List.all_eq_true.1 hA r hmem
        rw [hnone] at hrr
        exact Bool.noConfusion hrr
    have hcell : groupingSummaryCell rules = .error
        "TypeError: sequence item of str.join is None (parse_bioproject.py:358)" := by
      rw [groupingSummaryCell, hne, hallf]
      rfl
    have hgo : groupingOf (.parsed rules) = rules := rfl
    have hrun : runPipeline df df (.parsed rules) = .error
        "TypeError: sequence item of str.join is None (parse_bioproject.py:358)" := by
      rw [runPipeline, hgo, hcell]
    exact ⟨_, hrun, by rw [hrun]; rfl⟩
  · intro hall
    have hallt : rules.all (fun r2 => r2.column_name.isSome) = true :=
      List.all_eq_true.2 hall
    have hcell : groupingSummaryCell rules
        = .ok (joinSep ", " (rules.map (fun r2 => r2.column_name.getD ""))) := by
      rw [groupingSummaryCell, hne, hallt]
      rfl
    have hgo : groupingOf (.parsed rules) = rules := rfl
    have hrun : runPipeline df df (.parsed rules)
        = .ok (buildWorkbook df df rules) := by
      rw [runPipeline, hgo, hcell]
    refine ⟨hrun, ?_, by rw [hrun]; rfl⟩
    simp [buildWorkbook, hne]

/-- C9 witness: the amended theorem at the malformed first entry of the
counterexample's rule list. -/
theorem c9_witness :
    ∃ vals : List String,
      (ruleEngine dfDemo [ruleDemoBad, ruleDemoGood])[0]?
          = some (groupColName 0, vals) ∧
      (specValidEntry dfDemo ruleDemoBad = false → ∀ x ∈ vals, x = "NA") ∧
      (∀ (s : String) (colvals : List String),
        ruleDemoBad.column_name = some s →
        lookupCol dfDemo.cols s = some colvals →
        specValidEntry dfDemo ruleDemoBad = true →
        vals = applyLogicCol ruleDemoBad.grouping_logic colvals) ∧
      (ruleDemoBad.column_name = none →
        ∃ e : String,
          runPipeline dfDemo dfDemo (.parsed [ruleDemoBad, ruleDemoGood])
              = .error e ∧
          exitCode (runPipeline dfDemo dfDemo
              (.parsed [ruleDemoBad, ruleDemoGood])) = 1) ∧
      ((∀ r2 ∈ [ruleDemoBad, ruleDemoGood], r2.column_name.isSome = true) →
        runPipeline dfDemo dfDemo (.parsed [ruleDemoBad, ruleDemoGood])
            = .ok (buildWorkbook dfDemo dfDemo [ruleDemoBad, ruleDemoGood]) ∧
        (buildWorkbook dfDemo dfDemo [ruleDemoBad, ruleDemoGood]).rulesSheet
            = some ([ruleDemoBad, ruleDemoGood].map (fun e =>
                (e.column_name, e.grouping_logic, e.confidence, e.reason))) ∧
        exitCode (runPipeline dfDemo dfDemo
            (.parsed [ruleDemoBad, ruleDemoGood])) = 0) :=
  c9_amended dfDemo [ruleDemoBad, ruleDemoGood] 0 ruleDemoBad rfl

/-- C10: any input that is exactly the word "group" — in any letter
case, with optional surrounding whitespace — passes the `"NA"` guard,
loses the whole word to the `\bgroup\b` deletion, and normalizes to
the empty string `""` rather than the sentinel `"NA"`; consequently an
empty-string label is what gets written into a group cell for rows
matched by a pattern whose label is "group". -/
theorem c10_group_word_normalizes_to_empty :
    (∀ (a b c : List Char),
        (∀ x ∈ a, isSpaceB x = true) → (∀ x ∈ c, isSpaceB x = true) →
        lowerL b = "group".data →
        normalize_group_label (String.mk (a ++ b ++ c)) = "") ∧
    applyLogicCol [("healthy", "group")] ["healthy"] = [""] := by
  constructor
  · intro a b c ha hc hb
    obtain ⟨c1, c2, c3, c4, c5, rfl⟩ :
        ∃ x1 x2 x3 x4 x5, b = [x1, x2, x3, x4, x5] := by
      cases b with
      | nil => simp [lowerL] at hb
      | cons x1 b1 =>
        cases b1 with
        | nil => simp [lowerL] at hb
        | cons x2 b2 =>
          cases b2 with
          | nil => simp [lowerL] at hb
          | cons x3 b3 =>
            cases b3 with
            | nil => simp [lowerL] at hb
            | cons x4 b4 =>
              cases b4 with
              | nil => simp [lowerL] at hb
              | cons x5 b5 =>
                cases b5 with
                | nil => exact ⟨x1, x2, x3, x4, x5, rfl⟩
                | cons x6 b6 => simp [lowerL] at hb
    have hgd : "group".data = ['g', 'r', 'o', 'u', 'p'] := rfl
    rw [hgd, lowerL] at hb
    simp only [List.map_cons, List.map_nil, List.cons.injEq, and_true] at hb
    obtain ⟨h1, h2, h3, h4, h5⟩ := hb
    have hs1 : isSpaceB c1 = false :=
      isSpaceB_false_of_toLower_eq c1 'g' h1 (by decide)
    have hs5 : isSpaceB c5 = false :=
      isSpaceB_false_of_toLower_eq c5 'p' h5 (by decide)
    have hdata : (String.mk (a ++ [c1, c2, c3, c4, c5] ++ c)).data
        = a ++ [c1, c2, c3, c4, c5] ++ c := rfl
    rw [normalize_group_label, if_neg ?hguard]
    case hguard =>
      rw [hdata]
      rintro (hnil | hNA)
      · simp at hnil
      · have hlen := congrArg List.length hNA
        simp only [List.length_map, List.length_append, List.length_cons,
          List.length_nil] at hlen
        omega
    rw [hdata]
    have hstrip : stripL (a ++ [c1, c2, c3, c4, c5] ++ c)
        = [c1, c2, c3, c4, c5] := by
      rw [stripL, List.append_assoc, dropWhile_append_all _ _ a ha]
      have st1 : (([c1, c2, c3, c4, c5] ++ c) : List Char).dropWhile isSpaceB
          = [c1, c2, c3, c4, c5] ++ c := by
        rw [show (([c1, c2, c3, c4, c5] ++ c) : List Char)
            = c1 :: ([c2, c3, c4, c5] ++ c) from rfl]
        rw [List.dropWhile_cons, hs1]
        simp
      rw [st1, List.reverse_append]
      rw [dropWhile_append_all _ _ c.reverse
        (fun x hx => hc x (List.mem_reverse.1 hx))]
      rw [show ([c1, c2, c3, c4, c5] : List Char).reverse
          = c5 :: [c4, c3, c2, c1] from by simp]
      rw [List.dropWhile_cons, hs5]
      simp
    rw [hstrip]
    have hgs : groupSub [c1, c2, c3, c4, c5] = [] := by
      rw [groupSub, groupSubAux]
      rw [if_pos]
      · rfl
      · simp [prevBoundary, nextBoundary, h1, h2, h3, h4, h5]
    rw [hgs]
    rfl
  · decide

/-- C10 witness: a mixed-case, whitespace-padded "group" input. -/
theorem c10_witness :
    normalize_group_label (String.mk (" ".data ++ "GrOup".data ++ "  ".data))
      = "" :=
  c10_group_word_normalizes_to_empty.1 " ".data "GrOup".data "  ".data
    (by decide) (by decide) (by decide)

end ParseBioproject
